import Mathlib

/-!
Verification of the response-segmentation and mode-dispatch core of the
AI code-assistant UI (src/index.tsx).  Strings are modelled as `List Char`;
the JavaScript regular expressions used by the source are translated into
explicit scanning functions with the same leftmost-match / lazy-quantifier
semantics.
-/

namespace AiWeb

/-- Strings of the embedded program, as explicit character lists. -/
abbrev Str := List Char

/-- The backtick character used by markdown fences. -/
def tick : Char := '`'

/-- The star character used by emphasis and list markers. -/
def star : Char := '*'

/-- `[a-zA-Z]` of the source's regular expressions. -/
def isAsciiAlpha (c : Char) : Bool :=
  (97 ≤ c.toNat && c.toNat ≤ 122) || (65 ≤ c.toNat && c.toNat ≤ 90)

/-- Line terminators that the JavaScript `.` (no `s` flag) refuses to match. -/
def isLineTerm (c : Char) : Bool :=
  c == '\n' || c == '\r' || c.toNat == 0x2028 || c.toNat == 0x2029

/-- Whitespace removed by JavaScript `String.prototype.trim` (the code points
that can occur in the program's data). -/
def jsWhitespace (c : Char) : Bool :=
  c == ' ' || c == '\t' || c == '\n' || c == '\r' ||
  c.toNat == 11 || c.toNat == 12 || c.toNat == 0xA0 ||
  c.toNat == 0xFEFF || c.toNat == 0x2028 || c.toNat == 0x2029

/-- JavaScript `s.trim()`: drop whitespace from both ends. -/
def trimStr (s : Str) : Str :=
  ((s.dropWhile jsWhitespace).reverse.dropWhile jsWhitespace).reverse

/-- JavaScript `s.split('\n')` (keeps empty pieces, e.g. around blank lines). -/
def splitLines : Str → List Str
  | [] => [[]]
  | c :: cs =>
    if c = '\n' then [] :: splitLines cs
    else
      match splitLines cs with
      | [] => [[c]]
      | l :: ls => (c :: l) :: ls

/-- `part.startsWith('\x60\x60\x60')`: the next three characters are backticks. -/
def startsWithFence : Str → Bool
  | a :: b :: c :: _ => a == tick && b == tick && c == tick
  | _ => false

/-- Index of the first occurrence of three consecutive backticks. -/
def findTriple : Str → Option Nat
  | [] => none
  | s@(_ :: cs) =>
    if startsWithFence s then some 0 else (findTriple cs).map (· + 1)

/-- How far past the opening backticks the optional language-tag line of the
fence regex reaches: the greedy `[a-zA-Z]*` run plus its newline when the
group matches, nothing otherwise (the run's letters never reach a newline by
backtracking, so the group matches exactly when a newline directly follows
the maximal letter run). -/
def fenceSkip (t : Str) : Nat :=
  match t.drop (t.takeWhile isAsciiAlpha).length with
  | c :: _ => if c = '\n' then (t.takeWhile isAsciiAlpha).length + 1 else 0
  | [] => 0

/-- Length of the leftmost match of the fenced-code regular expression
when it matches at the head of `s`; the regex (src/index.tsx line 710) is
three backticks, an optional language-tag line `[a-zA-Z]*` + newline, a lazy
body, and three closing backticks. -/
def matchLenAt (s : Str) : Option Nat :=
  if startsWithFence s then
    match findTriple ((s.drop 3).drop (fenceSkip (s.drop 3))) with
    | some m => some (3 + fenceSkip (s.drop 3) + m + 3)
    | none => none
  else none

/-- Leftmost match of the fence regex in `s`: the text before the match, the
match itself, and the rest. -/
def findFenceSplit : Str → Option (Str × Str × Str)
  | [] => none
  | s@(c :: cs) =>
    match matchLenAt s with
    | some n => some ([], s.take n, s.drop n)
    | none =>
      match findFenceSplit cs with
      | some (p, m, r) => some (c :: p, m, r)
      | none => none

/-- JavaScript `content.split(/(...)/g)` with the whole fence pattern in one
capture group: pieces of text alternate with the captured matches.  `fuel`
bounds the recursion; `fuel = s.length` always suffices. -/
def splitFenceAux : Nat → Str → List Str
  | 0, s => [s]
  | fuel + 1, s =>
    match findFenceSplit s with
    | none => [s]
    | some (p, m, r) => p :: m :: splitFenceAux fuel r

/-- The top-level split of a response into fenced-code and non-code pieces. -/
def splitFence (s : Str) : List Str := splitFenceAux s.length s

/-- `content.split(...).filter(Boolean)` (src/index.tsx line 710): the split
with empty pieces removed. -/
def markdownParts (s : Str) : List Str :=
  (splitFence s).filter (fun p => !p.isEmpty)

/-- Inside a non-code piece the source splits on `/(\*\*.*?\*\*)/g`
(line 730).  Given the text after an opening `**`, find the least offset of a
closing `**` reachable without crossing a line terminator (the `.` of the
lazy body refuses line terminators). -/
def findCloseStars : Str → Option Nat
  | [] => none
  | a :: rest =>
    match rest with
    | b :: _ =>
      if a == star && b == star then some 0
      else if isLineTerm a then none
      else (findCloseStars rest).map (· + 1)
    | [] => none

/-- Length of the emphasis-regex match at the head of `s`, if any. -/
def boldMatchLen (s : Str) : Option Nat :=
  match s with
  | a :: b :: _ =>
    if a == star && b == star then
      (findCloseStars (s.drop 2)).map (fun j => 2 + j + 2)
    else none
  | _ => none

/-- Leftmost match of the emphasis regex in `s`. -/
def findBoldSplit : Str → Option (Str × Str × Str)
  | [] => none
  | s@(c :: cs) =>
    match boldMatchLen s with
    | some n => some ([], s.take n, s.drop n)
    | none =>
      match findBoldSplit cs with
      | some (p, m, r) => some (c :: p, m, r)
      | none => none

/-- `part.split(/(\*\*.*?\*\*)/g)`; unlike the fence split the source keeps
empty pieces here.  `fuel = s.length` always suffices. -/
def boldSplitAux : Nat → Str → List Str
  | 0, s => [s]
  | fuel + 1, s =>
    match findBoldSplit s with
    | none => [s]
    | some (p, m, r) => p :: m :: boldSplitAux fuel r

/-- The split of a non-code piece around `**...**` emphasis spans. -/
def boldSplit (s : Str) : List Str := boldSplitAux s.length s

/-- One formatted unit of a non-code piece: an emphasis run, a bullet list,
or a plain text run (the `<strong>`, `<ul>` and `<span>` of lines 733-744). -/
inductive FormattedPiece
  | strong (text : Str)
  | listBlock (items : List Str)
  | span (text : Str)
deriving DecidableEq, Repr

/-- JavaScript `text.slice(2, -2)`. -/
def jsSlice2m2 (t : Str) : Str := (t.drop 2).take (t.length - 4)

/-- `text.startsWith('**')`. -/
def startsWithStars (s : Str) : Bool := List.isPrefixOf [star, star] s

/-- `text.endsWith('**')`. -/
def endsWithStars (s : Str) : Bool := List.isPrefixOf [star, star] s.reverse

/-- A line begins with a bullet marker: `startsWith('* ') || startsWith('- ')`. -/
def isMarkerStart (s : Str) : Bool :=
  List.isPrefixOf [star, ' '] s || List.isPrefixOf ['-', ' '] s

/-- The `<li>` texts of a bullet block (line 738-740): split the trimmed text
into lines, keep only the marker lines, and for each render
`item.trim().substring(2)`.  Lines without a marker produce nothing (the
`&&` renders `false`, which React drops). -/
def listItems (text : Str) : List Str :=
  (splitLines (trimStr text)).filterMap fun item =>
    if isMarkerStart (trimStr item) then some ((trimStr item).drop 2) else none

/-- Formatting of one piece of the emphasis split (lines 731-744). -/
def renderPiece (text : Str) : FormattedPiece :=
  if startsWithStars text && endsWithStars text then
    .strong (jsSlice2m2 text)
  else if isMarkerStart (trimStr text) then
    .listBlock (listItems text)
  else
    .span text

/-- The formatted content of a non-code part (lines 729-745). -/
def formatPart (part : Str) : List FormattedPiece :=
  (boldSplit part).map renderPiece

/-- The supported-language catalog `LANGUAGES` (src/index.tsx lines 21-33). -/
inductive Lang
  | javascript | typescript | python | java | cpp | go | rust | html | css | sql | shell
deriving DecidableEq, Repr, Fintype

/-- The catalog in its source order. -/
def LANGUAGES : List Lang :=
  [.javascript, .typescript, .python, .java, .cpp, .go, .rust, .html, .css, .sql, .shell]

/-- The display label of a catalog entry. -/
def langLabel : Lang → Str
  | .javascript => ('J' :: String.toList "avaScript")
  | .typescript => ('T' :: String.toList "ypeScript")
  | .python => String.toList "Python"
  | .java => String.toList "Java"
  | .cpp => String.toList "C++"
  | .go => String.toList "Go"
  | .rust => String.toList "Rust"
  | .html => String.toList "HTML"
  | .css => String.toList "CSS"
  | .sql => String.toList "SQL"
  | .shell => String.toList "Shell"

/-- ASCII lower-casing, the effect of `toLowerCase` on the catalog labels and
on the `[a-zA-Z]*` language tags that reach it. -/
def toLowerChar (c : Char) : Char :=
  if 65 ≤ c.toNat && c.toNat ≤ 90 then Char.ofNat (c.toNat + 32) else c

/-- `s.toLowerCase()` over the relevant ASCII data. -/
def lowerStr (s : Str) : Str := s.map toLowerChar

/-- `CodeBlock`'s `normalizedLanguage` (lines 596-600): the first catalog
entry whose lower-cased label equals the lower-cased tag, else JavaScript. -/
def normalizedLanguage (language : Str) : Lang :=
  match LANGUAGES.find? (fun l => lowerStr (langLabel l) == lowerStr language) with
  | some l => l
  | none => .javascript

/-- `part.match(/^\x60\x60\x60([a-zA-Z]*)/)?.[1] || ''` (line 725): the
declared language of a code part. -/
def langOf (part : Str) : Str :=
  if startsWithFence part then (part.drop 3).takeWhile isAsciiAlpha else []

/-- `part.replace(/^\x60\x60\x60[a-zA-Z]*\n?/, '')` (lines 720 and 726):
remove the three backticks, the greedy ASCII-letter run, and one newline
directly after it if present. -/
def stripHeader (part : Str) : Str :=
  if startsWithFence part then
    match (part.drop 3).dropWhile isAsciiAlpha with
    | c :: rest => if c = '\n' then rest else c :: rest
    | [] => []
  else part

/-- `s.replace(/\x60\x60\x60$/, '')`: remove a trailing triple backtick. -/
def stripCloseFence (s : Str) : Str :=
  if startsWithFence s.reverse then s.take (s.length - 3) else s

/-- The body handed to `CodeComparison`/`CodeBlock` for a code part
(lines 720 and 726): strip the fence header, strip a closing fence, trim. -/
def extractBody (part : Str) : Str :=
  trimStr (stripCloseFence (stripHeader part))

/-- One rendered unit of `MarkdownResponse`: a structural diff
(`CodeComparison`), a plain code block (`CodeBlock`), or formatted prose. -/
inductive RenderItem
  | comparison (originalCode newCode : Str) (lang : Lang)
  | codeBlock (language : Str) (code : Str)
  | prose (pieces : List FormattedPiece)
deriving DecidableEq, Repr

/-- The rendering loop of `MarkdownResponse` (lines 715-748), threading the
`diffHasBeenRendered` flag.  The diff branch fires when the part is a code
block, `originalCode` is a nonempty string, `language` is provided and no
diff was rendered yet. -/
def renderGo (originalCode : Str) (language : Option Lang) :
    List Str → Bool → List RenderItem
  | [], _ => []
  | part :: rest, diffRendered =>
    if startsWithFence part then
      match language with
      | some lg =>
        if !originalCode.isEmpty && !diffRendered then
          .comparison originalCode (extractBody part) lg ::
            renderGo originalCode language rest true
        else
          .codeBlock (langOf part) (extractBody part) ::
            renderGo originalCode language rest diffRendered
      | none =>
        .codeBlock (langOf part) (extractBody part) ::
          renderGo originalCode language rest diffRendered
    else
      .prose (formatPart part) :: renderGo originalCode language rest diffRendered

/-- `MarkdownResponse` as a function from the response text and the optional
original snapshot to the ordered list of rendered items (lines 709-751). -/
def renderResponse (content : Str) (originalCode : Str) (language : Option Lang) :
    List RenderItem :=
  renderGo originalCode language (markdownParts content) false

/-- Whether a rendered item is the structural diff. -/
def isDiffItem : RenderItem → Bool
  | .comparison _ _ _ => true
  | _ => false

/-- Whether a rendered item shows code (diff or plain code block). -/
def isCodeRender : RenderItem → Bool
  | .comparison _ _ _ => true
  | .codeBlock _ _ => true
  | .prose _ => false

/-- Number of diff-rendered items. -/
def countDiff (items : List RenderItem) : Nat := items.countP isDiffItem

/-- Number of code parts among the split pieces. -/
def countCode (parts : List Str) : Nat := parts.countP startsWithFence

/-- The render has an original snapshot to pair against: `originalCode` is a
nonempty string and a language is provided (line 718's truthiness tests). -/
def presentB (originalCode : Str) (language : Option Lang) : Bool :=
  !originalCode.isEmpty && language.isSome

/-- The operating modes `AiMode` (src/index.tsx lines 37-45). -/
inductive AiMode
  | ASSIST | GENERATE | DEBUG | REFACTOR | REVIEW | GENERATE_DOCS | GENERATE_TESTS | ANALYZE_REPO
deriving DecidableEq, Repr

/-- The UI theme (line 452). -/
inductive Theme
  | light | dark
deriving DecidableEq, Repr

/-- The per-session UI state relevant to the dispatcher: the `useState`
cells of `CodeAssistant` (lines 754-761) together with the theme and the
authentication flag of `App` (lines 918-919). -/
structure UiState where
  mode : AiMode
  language : Lang
  code : Str
  userInput : Str
  response : Str
  error : Option Str
  originalCodeForDiff : Str
  isLoading : Bool
  theme : Theme
  isAuthenticated : Bool
deriving DecidableEq, Repr

/-- An external call issued by `handleSubmit`: one of the Gemini service
entry points (lines 72-238) or one of the two GitHub fetches (lines 809-812). -/
inductive ExtCall
  | analyzeCode (code problem : Str) (language : Lang)
  | generateCode (description : Str) (language : Lang)
  | debugAndExecuteCode (code : Str) (language : Lang)
  | refactorCode (code : Str) (language : Lang)
  | reviewCode (code : Str) (language : Lang)
  | generateDocs (code : Str) (language : Lang)
  | generateTests (code : Str) (language : Lang)
  | fetchReadmeMeta (owner repo : Str)
  | fetchReadmeContent (url : Str)
  | analyzeRepo (readmeContent : Str)
deriving DecidableEq, Repr

/-- The external collaborators: the LLM request executor (which never
throws past its boundary, returning a text for every service call) and the
two GitHub fetch stages, each succeeding with a payload or failing with the
message the handler surfaces. -/
structure Oracle where
  llm : ExtCall → Str
  fetchMeta : Str → Str → Except Str Str
  fetchContent : Str → Except Str Str

/-- Validation message of ASSIST (line 773). -/
def msgAssist : Str := String.toList "Please provide both code and a problem description."

/-- Validation message of GENERATE (line 778). -/
def msgGenerate : Str := String.toList "Please provide a description for the code to generate."

/-- Validation message of DEBUG (line 782). -/
def msgDebug : Str := String.toList "Please provide code to debug."

/-- Validation message of REFACTOR (line 787). -/
def msgRefactor : Str := String.toList "Please provide code to refactor."

/-- Validation message of REVIEW (line 792). -/
def msgReview : Str := String.toList "Please provide code to review."

/-- Validation message of GENERATE_DOCS (line 796). -/
def msgDocs : Str := String.toList "Please provide code to generate documentation for."

/-- Validation message of GENERATE_TESTS (line 800). -/
def msgTests : Str := String.toList "Please provide code to generate tests for."

/-- Validation message of ANALYZE_REPO with an empty input (line 804). -/
def msgRepoEmpty : Str := String.toList "Please provide a public GitHub repository URL."

/-- Validation message of ANALYZE_REPO with a non-matching URL (line 806). -/
def msgRepoInvalid : Str :=
  String.toList "Invalid GitHub repository URL. Use format: https://github.com/owner/repo"

/-- Match of `/github\.com\/([^\/]+)\/([^\/]+)/` at the head of `s`:
the literal host, then the owner (one or more non-slash characters), a
slash, and the repo (one or more non-slash characters). -/
def githubMatchAt (s : Str) : Option (Str × Str) :=
  if List.isPrefixOf (String.toList "github.com/") s then
    let t := s.drop 11
    let owner := t.takeWhile (fun c => c != '/')
    if owner.isEmpty then none
    else
      match t.drop owner.length with
      | c :: u =>
        if c = '/' then
          let repo := u.takeWhile (fun c => c != '/')
          if repo.isEmpty then none else some (owner, repo)
        else none
      | [] => none
  else none

/-- `userInput.match(/github\.com\/([^\/]+)\/([^\/]+)/)` (line 805):
the leftmost match's two groups. -/
def githubMatch : Str → Option (Str × Str)
  | [] => none
  | s@(_ :: cs) =>
    match githubMatchAt s with
    | some r => some r
    | none => githubMatch cs

/-- `repo.replace(/\.git$/, '')` (line 809). -/
def stripDotGit (repo : Str) : Str :=
  if List.isPrefixOf (String.toList "tig.") repo.reverse then
    repo.take (repo.length - 4)
  else repo

/-- `handleSubmit` (lines 763-826) as a state transformer: it first sets the
loading flag and clears the response, the error and the snapshot, then
validates the mode's required inputs, and either aborts with a mode-specific
message or performs the mode's external calls and stores the result together
with the original-code snapshot (code for ASSIST, DEBUG and REFACTOR, empty
otherwise).  The second component lists the external calls in order. -/
def handleSubmit (o : Oracle) (st : UiState) : UiState × List ExtCall :=
  let s0 : UiState :=
    { st with isLoading := true, response := [], error := none, originalCodeForDiff := [] }
  let fail : Str → UiState × List ExtCall := fun msg =>
    ({ s0 with error := some msg, isLoading := false }, [])
  let success : Str → Str → List ExtCall → UiState × List ExtCall :=
    fun result originalCode calls =>
      ({ s0 with response := result, originalCodeForDiff := originalCode,
                 isLoading := false }, calls)
  match st.mode with
  | .ASSIST =>
    if st.code.isEmpty || st.userInput.isEmpty then fail msgAssist
    else
      let call := ExtCall.analyzeCode st.code st.userInput st.language
      success (o.llm call) st.code [call]
  | .GENERATE =>
    if st.userInput.isEmpty then fail msgGenerate
    else
      let call := ExtCall.generateCode st.userInput st.language
      success (o.llm call) [] [call]
  | .DEBUG =>
    if st.code.isEmpty then fail msgDebug
    else
      let call := ExtCall.debugAndExecuteCode st.code st.language
      success (o.llm call) st.code [call]
  | .REFACTOR =>
    if st.code.isEmpty then fail msgRefactor
    else
      let call := ExtCall.refactorCode st.code st.language
      success (o.llm call) st.code [call]
  | .REVIEW =>
    if st.code.isEmpty then fail msgReview
    else
      let call := ExtCall.reviewCode st.code st.language
      success (o.llm call) [] [call]
  | .GENERATE_DOCS =>
    if st.code.isEmpty then fail msgDocs
    else
      let call := ExtCall.generateDocs st.code st.language
      success (o.llm call) [] [call]
  | .GENERATE_TESTS =>
    if st.code.isEmpty then fail msgTests
    else
      let call := ExtCall.generateTests st.code st.language
      success (o.llm call) [] [call]
  | .ANALYZE_REPO =>
    if st.userInput.isEmpty then fail msgRepoEmpty
    else
      match githubMatch st.userInput with
      | none => fail msgRepoInvalid
      | some (owner, repo) =>
        let repo := stripDotGit repo
        match o.fetchMeta owner repo with
        | .error e =>
          ({ s0 with error := some e, isLoading := false },
           [ExtCall.fetchReadmeMeta owner repo])
        | .ok url =>
          match o.fetchContent url with
          | .error e =>
            ({ s0 with error := some e, isLoading := false },
             [ExtCall.fetchReadmeMeta owner repo, ExtCall.fetchReadmeContent url])
          | .ok text =>
            let call := ExtCall.analyzeRepo text
            success (o.llm call) []
              [ExtCall.fetchReadmeMeta owner repo, ExtCall.fetchReadmeContent url, call]

/-- A required input of the current mode is missing (for ANALYZE_REPO: no
substring matches the repository-host pattern, which covers the empty
input). -/
def requiredMissing (st : UiState) : Prop :=
  match st.mode with
  | .ASSIST => st.code = [] ∨ st.userInput = []
  | .GENERATE => st.userInput = []
  | .DEBUG | .REFACTOR | .REVIEW | .GENERATE_DOCS | .GENERATE_TESTS => st.code = []
  | .ANALYZE_REPO => githubMatch st.userInput = none

instance (st : UiState) : Decidable (requiredMissing st) := by
  unfold requiredMissing; cases st.mode <;> infer_instance

/-- The message the failed validation shows, per mode. -/
def validationMsg (st : UiState) : Str :=
  match st.mode with
  | .ASSIST => msgAssist
  | .GENERATE => msgGenerate
  | .DEBUG => msgDebug
  | .REFACTOR => msgRefactor
  | .REVIEW => msgReview
  | .GENERATE_DOCS => msgDocs
  | .GENERATE_TESTS => msgTests
  | .ANALYZE_REPO => if st.userInput.isEmpty then msgRepoEmpty else msgRepoInvalid

/-- `retainsOriginalCode`: the modes that snapshot the submitted code for
diff pairing (the `originalCode = code` assignments at lines 774, 783, 788). -/
def retainsOriginalCode : AiMode → Bool
  | .ASSIST | .DEBUG | .REFACTOR => true
  | _ => false

/-- The `onClick` of `ModeButton` (line 829): switch the mode and clear the
response, the code, the user input, the error and the snapshot. -/
def modeButtonClick (st : UiState) (value : AiMode) : UiState :=
  { st with mode := value, response := [], code := [], userInput := [],
            error := none, originalCodeForDiff := [] }

/-! ### Lemmas about the top-level split -/

theorem findFenceSplit_eq {s p m r : Str} (h : findFenceSplit s = some (p, m, r)) :
    s = p ++ m ++ r := by
  induction s generalizing p m r with
  | nil => simp [findFenceSplit] at h
  | cons c cs ih =>
    rw [findFenceSplit] at h
    rcases hm : matchLenAt (c :: cs) with _ | n
    · rw [hm] at h
      rcases hr : findFenceSplit cs with _ | ⟨p', m', r'⟩
      · rw [hr] at h; exact absurd h (by simp)
      · rw [hr] at h
        obtain ⟨rfl, rfl, rfl⟩ : c :: p' = p ∧ m' = m ∧ r' = r := by
          simpa using h
        have := ih hr
        simp [← this]
    · rw [hm] at h
      obtain ⟨rfl, rfl, rfl⟩ : ([] : Str) = p ∧ (c :: cs).take n = m ∧ (c :: cs).drop n = r := by
        simpa using h
      simp

theorem splitFenceAux_flatten (fuel : Nat) (s : Str) :
    (splitFenceAux fuel s).flatten = s := by
  induction fuel generalizing s with
  | zero => simp [splitFenceAux]
  | succ fuel ih =>
    rw [splitFenceAux]
    rcases h : findFenceSplit s with _ | ⟨p, m, r⟩
    · simp
    · have := findFenceSplit_eq h
      simp [ih, this]

theorem flatten_filter_nonempty (l : List Str) :
    (l.filter (fun p => !p.isEmpty)).flatten = l.flatten := by
  induction l with
  | nil => rfl
  | cons x xs ih =>
    by_cases hx : x.isEmpty
    · have : x = [] := by cases x <;> simp_all
      simp [List.filter_cons, hx, ih, this]
    · simp [List.filter_cons, hx, ih]

/-- C2.  Top-level segmentation is lossless: the emitted parts (fenced code
parts keep their fence markers) concatenate, in order, back to the input
string, byte for byte. -/
theorem roundtrip_markdownParts (s : Str) : (markdownParts s).flatten = s := by
  rw [markdownParts, flatten_filter_nonempty, splitFence, splitFenceAux_flatten]

/-! ### Lemmas about diff pairing -/

theorem countDiff_renderGo_true (oc : Str) (lg : Option Lang) (parts : List Str) :
    countDiff (renderGo oc lg parts true) = 0 := by
  induction parts with
  | nil => simp [renderGo, countDiff]
  | cons part rest ih =>
    by_cases h1 : startsWithFence part <;> rcases lg with _ | l <;>
      simp_all [renderGo, countDiff, List.countP_cons, isDiffItem]

theorem countDiff_renderGo_false (oc : Str) (lg : Option Lang) (parts : List Str) :
    countDiff (renderGo oc lg parts false) =
      if presentB oc lg && parts.any startsWithFence then 1 else 0 := by
  induction parts with
  | nil => simp [renderGo, countDiff]
  | cons part rest ih =>
    by_cases h1 : startsWithFence part
    · rcases lg with _ | l
      · simp_all [renderGo, countDiff, List.countP_cons, isDiffItem, presentB]
      · by_cases hoc : oc.isEmpty
        · simp_all [renderGo, countDiff, List.countP_cons, isDiffItem, presentB]
        · have h0 := countDiff_renderGo_true oc (some l) rest
          simp_all [renderGo, countDiff, List.countP_cons, isDiffItem, presentB]
    · have h1' : startsWithFence part = false := by simp [h1]
      simp_all [renderGo, countDiff, List.countP_cons, isDiffItem, List.any_cons, h1']

theorem renderGo_diff_first (oc : Str) (lg : Option Lang) :
    ∀ (parts : List Str) (flag : Bool) (i : Nat) (item : RenderItem),
      (renderGo oc lg parts flag).get? i = some item → isDiffItem item = true →
      presentB oc lg = true ∧ flag = false ∧
      startsWithFence (parts.getD i []) = true ∧
      ∀ j, j < i → startsWithFence (parts.getD j []) = false := by
  intro parts
  induction parts with
  | nil => intro flag i item h; simp [renderGo] at h
  | cons part rest ih =>
    intro flag i item h hd
    simp only [renderGo] at h
    split at h
    case isTrue h1 =>
      split at h
      case h_1 l heq =>
        split at h
        case isTrue h2 =>
          cases i with
          | zero =>
            simp only [List.get?_cons_zero, Option.some.injEq] at h
            subst h
            have hoc : (!oc.isEmpty) = true := by
              cases hx : !oc.isEmpty <;> simp [hx] at h2 ⊢
            have hfl : flag = false := by cases flag <;> simp_all
            refine ⟨by simp [presentB, hoc], hfl, by simpa using h1, by omega⟩
          | succ i' =>
            simp only [List.get?_cons_succ] at h
            obtain ⟨hp, hf, hfe, hlt⟩ := ih true i' item h hd
            exact absurd hf (by simp)
        case isFalse h2 =>
          cases i with
          | zero =>
            simp only [List.get?_cons_zero, Option.some.injEq] at h
            subst h
            simp [isDiffItem] at hd
          | succ i' =>
            simp only [List.get?_cons_succ] at h
            obtain ⟨hp, hf, hfe, hlt⟩ := ih flag i' item h hd
            have hoc : (!oc.isEmpty) = true := by
              simp [presentB] at hp
              simpa using hp
            subst hf
            simp [hoc] at h2
      case h_2 heq =>
        cases i with
        | zero =>
          simp only [List.get?_cons_zero, Option.some.injEq] at h
          subst h
          simp [isDiffItem] at hd
        | succ i' =>
          simp only [List.get?_cons_succ] at h
          obtain ⟨hp, hf, hfe, hlt⟩ := ih flag i' item h hd
          simp [presentB] at hp
    case isFalse h1 =>
      have h1' : startsWithFence part = false := by simpa using h1
      cases i with
      | zero =>
        simp only [List.get?_cons_zero, Option.some.injEq] at h
        subst h
        simp [isDiffItem] at hd
      | succ i' =>
        simp only [List.get?_cons_succ] at h
        obtain ⟨hp, hf, hfe, hlt⟩ := ih flag i' item h hd
        refine ⟨hp, hf, hfe, ?_⟩
        intro j hj
        cases j with
        | zero => simpa using h1'
        | succ j' => exact hlt j' (by omega)

/-- C1.  Diff pairing: with an original snapshot present (nonempty original
code and a language), exactly `min(N,1)` of the rendered items are diffs,
where `N` counts the Code parts; with no snapshot, zero items are diffs; and
any diff item sits at the position of the first Code part (every earlier
part is non-code).  In particular at most one segment per response is ever
diff-paired, and a snapshot with no Code segment renders no diff. -/
theorem diff_pairing_invariant (content oc : Str) (lg : Option Lang) :
    (presentB oc lg = true →
      countDiff (renderResponse content oc lg) = min (countCode (markdownParts content)) 1) ∧
    (presentB oc lg = false → countDiff (renderResponse content oc lg) = 0) ∧
    (∀ i item, (renderResponse content oc lg).get? i = some item → isDiffItem item = true →
      startsWithFence ((markdownParts content).getD i []) = true ∧
      ∀ j, j < i → startsWithFence ((markdownParts content).getD j []) = false) := by
  refine ⟨?_, ?_, ?_⟩
  · intro hp
    rw [renderResponse, countDiff_renderGo_false]
    rcases hany : (markdownParts content).any startsWithFence with _ | _
    · have h0 : countCode (markdownParts content) = 0 := by
        rw [countCode, List.countP_eq_zero]
        intro a ha
        rcases hx : startsWithFence a with _ | _
        · simp
        · exact absurd hany (by simp [List.any_eq_true]; exact ⟨a, ha, hx⟩)
      simp [hp, hany, h0]
    · have h1 : 0 < countCode (markdownParts content) := by
        rw [countCode, List.countP_pos_iff]
        rw [List.any_eq_true] at hany
        obtain ⟨a, ha, hx⟩ := hany
        exact ⟨a, ha, hx⟩
      simp [hp, hany]
      omega
  · intro hp
    rw [renderResponse, countDiff_renderGo_false]
    simp [hp]
  · intro i item h hd
    obtain ⟨_, _, hfe, hlt⟩ :=
      renderGo_diff_first oc lg (markdownParts content) false i item h hd
    exact ⟨hfe, hlt⟩

/-- Witness for C1 at the response `x(fence)a(fence)y(fence)b(fence)`:
with a snapshot it has exactly one diff (the first of its two code parts, at
index 1); without one, none. -/
theorem diff_pairing_invariant_witness :
    countDiff (renderResponse (String.toList "x```a```y```b```")
        (String.toList "q") (some Lang.python)) =
      min (countCode (markdownParts (String.toList "x```a```y```b```"))) 1 ∧
    countDiff (renderResponse (String.toList "x```a```y```b```") [] (some Lang.python)) = 0 ∧
    (startsWithFence ((markdownParts (String.toList "x```a```y```b```")).getD 1 []) = true ∧
      ∀ j, j < 1 →
        startsWithFence ((markdownParts (String.toList "x```a```y```b```")).getD j []) = false) := by
  refine ⟨(diff_pairing_invariant _ _ _).1 (by decide),
    (diff_pairing_invariant _ _ _).2.1 (by decide),
    (diff_pairing_invariant (String.toList "x```a```y```b```")
        (String.toList "q") (some Lang.python)).2.2 1
      (RenderItem.comparison (String.toList "q") [] Lang.python) (by decide) (by decide)⟩

/-- C7.  Switching modes puts the UI in the clicked mode and unconditionally
clears the code input, the user input, the response, the error and the
original-code snapshot, while the language, the theme and the authentication
state are untouched. -/
theorem mode_switch_clears (st : UiState) (v : AiMode) :
    (modeButtonClick st v).mode = v ∧
    (modeButtonClick st v).code = [] ∧
    (modeButtonClick st v).userInput = [] ∧
    (modeButtonClick st v).response = [] ∧
    (modeButtonClick st v).error = none ∧
    (modeButtonClick st v).originalCodeForDiff = [] ∧
    (modeButtonClick st v).language = st.language ∧
    (modeButtonClick st v).theme = st.theme ∧
    (modeButtonClick st v).isAuthenticated = st.isAuthenticated := by
  simp [modeButtonClick]

/-- C8.  Language normalization of a code block: the result is always a
catalog entry; a tag matching no catalog label case-insensitively (the empty
tag included) falls back to the fixed default JavaScript; a tag matching
some label case-insensitively yields that entry. -/
theorem language_fallback (tag : Str) :
    normalizedLanguage tag ∈ LANGUAGES ∧
    ((∀ l : Lang, lowerStr (langLabel l) ≠ lowerStr tag) →
      normalizedLanguage tag = Lang.javascript) ∧
    (∀ l : Lang, lowerStr (langLabel l) = lowerStr tag → normalizedLanguage tag = l) := by
  refine ⟨?_, ?_, ?_⟩
  · rw [normalizedLanguage]
    rcases hf : LANGUAGES.find? (fun l => lowerStr (langLabel l) == lowerStr tag) with _ | l
    · decide
    · simpa using List.mem_of_find?_eq_some hf
  · intro h
    rw [normalizedLanguage]
    have hf : LANGUAGES.find? (fun l => lowerStr (langLabel l) == lowerStr tag) = none := by
      rw [List.find?_eq_none]
      intro l _
      simpa using h l
    rw [hf]
  · intro l h
    rw [normalizedLanguage, ← h]
    cases l <;> decide

/-- Witness for C8: the unknown tag `ruby` is in no catalog entry and maps
to JavaScript; the tag `PYTHON` matches `Python` case-insensitively. -/
theorem language_fallback_witness :
    normalizedLanguage (String.toList "ruby") ∈ LANGUAGES ∧
    normalizedLanguage (String.toList "ruby") = Lang.javascript ∧
    normalizedLanguage (String.toList "PYTHON") = Lang.python := by
  refine ⟨(language_fallback (String.toList "ruby")).1,
    (language_fallback (String.toList "ruby")).2.1 (by decide),
    (language_fallback (String.toList "PYTHON")).2.2 Lang.python (by decide)⟩

/-! ### Lemmas about the dispatcher -/

/-- A concrete oracle (a constant request executor and succeeding fetches),
used to instantiate the dispatcher theorems. -/
def oracle0 : Oracle where
  llm := fun _ => []
  fetchMeta := fun _ _ => Except.ok []
  fetchContent := fun _ => Except.ok []

/-- On a missing required input `handleSubmit` produces exactly the
abort state: cleared response and snapshot, the mode's validation message,
loading off, and no external call. -/
theorem handleSubmit_validation (o : Oracle) (st : UiState) (h : requiredMissing st) :
    handleSubmit o st =
      ({ st with response := [], error := some (validationMsg st),
                 originalCodeForDiff := [], isLoading := false }, []) := by
  obtain ⟨mode, language, code, userInput, response, error, ocd, il, th, auth⟩ := st
  cases mode
  case ASSIST =>
    simp only [requiredMissing] at h
    have hc : (code.isEmpty || userInput.isEmpty) = true := by
      rcases h with h | h <;> simp [h]
    simp [handleSubmit, validationMsg, hc]
  case GENERATE =>
    simp only [requiredMissing] at h
    simp [handleSubmit, validationMsg, h]
  case DEBUG =>
    simp only [requiredMissing] at h
    simp [handleSubmit, validationMsg, h]
  case REFACTOR =>
    simp only [requiredMissing] at h
    simp [handleSubmit, validationMsg, h]
  case REVIEW =>
    simp only [requiredMissing] at h
    simp [handleSubmit, validationMsg, h]
  case GENERATE_DOCS =>
    simp only [requiredMissing] at h
    simp [handleSubmit, validationMsg, h]
  case GENERATE_TESTS =>
    simp only [requiredMissing] at h
    simp [handleSubmit, validationMsg, h]
  case ANALYZE_REPO =>
    simp only [requiredMissing] at h
    by_cases he : userInput.isEmpty
    · simp [handleSubmit, validationMsg, he]
    · simp [handleSubmit, validationMsg, he, h]

/-- C5.  For every mode, submitting with a required input missing aborts the
dispatch: no external call is issued, the mode-specific validation message
becomes the visible error, no original-code snapshot is taken, and the
loading flag ends cleared. -/
theorem validation_aborts (o : Oracle) (st : UiState) (h : requiredMissing st) :
    (handleSubmit o st).2 = [] ∧
    (handleSubmit o st).1.error = some (validationMsg st) ∧
    (handleSubmit o st).1.originalCodeForDiff = [] ∧
    (handleSubmit o st).1.response = [] ∧
    (handleSubmit o st).1.isLoading = false := by
  rw [handleSubmit_validation o st h]
  simp

/-- Witness for C5: an ASSIST submission with code present but an empty
problem description aborts with the ASSIST message and no external call. -/
theorem validation_aborts_witness :
    ((handleSubmit oracle0
        ⟨.ASSIST, .javascript, String.toList "x=1", [], String.toList "old",
         none, String.toList "snap", true, .dark, true⟩).2 = [] ∧
      (handleSubmit oracle0
        ⟨.ASSIST, .javascript, String.toList "x=1", [], String.toList "old",
         none, String.toList "snap", true, .dark, true⟩).1.error =
        some (validationMsg
          ⟨.ASSIST, .javascript, String.toList "x=1", [], String.toList "old",
           none, String.toList "snap", true, .dark, true⟩) ∧
      (handleSubmit oracle0
        ⟨.ASSIST, .javascript, String.toList "x=1", [], String.toList "old",
         none, String.toList "snap", true, .dark, true⟩).1.originalCodeForDiff = [] ∧
      (handleSubmit oracle0
        ⟨.ASSIST, .javascript, String.toList "x=1", [], String.toList "old",
         none, String.toList "snap", true, .dark, true⟩).1.response = [] ∧
      (handleSubmit oracle0
        ⟨.ASSIST, .javascript, String.toList "x=1", [], String.toList "old",
         none, String.toList "snap", true, .dark, true⟩).1.isLoading = false) :=
  validation_aborts oracle0 _ (by right; rfl)

/-- C10.  After a validation failure the previously displayed response and
snapshot are gone: whatever the prior state held, the dispatcher cleared
them at entry and the early return leaves them empty, with the error set. -/
theorem dispatch_clears_previous (o : Oracle) (st : UiState) (h : requiredMissing st) :
    (handleSubmit o st).1.response = [] ∧
    (handleSubmit o st).1.originalCodeForDiff = [] ∧
    (handleSubmit o st).1.error ≠ none := by
  rw [handleSubmit_validation o st h]
  simp

/-- Witness for C10: a GENERATE submission with an empty description, issued
from a state still showing an old response and an old snapshot, ends with
both empty and an error shown. -/
theorem dispatch_clears_previous_witness :
    ((handleSubmit oracle0
        ⟨.GENERATE, .python, String.toList "k", [], String.toList "old answer",
         none, String.toList "old snapshot", false, .light, true⟩).1.response = [] ∧
      (handleSubmit oracle0
        ⟨.GENERATE, .python, String.toList "k", [], String.toList "old answer",
         none, String.toList "old snapshot", false, .light, true⟩).1.originalCodeForDiff = [] ∧
      (handleSubmit oracle0
        ⟨.GENERATE, .python, String.toList "k", [], String.toList "old answer",
         none, String.toList "old snapshot", false, .light, true⟩).1.error ≠ none) :=
  dispatch_clears_previous oracle0 _ (by rfl)

/-- C6.  On a successful dispatch the snapshot equals the submitted code for
ASSIST, DEBUG and REFACTOR and stays empty for the other five modes; it is
nonempty exactly for the retaining modes, so the other modes' responses can
never be diff-paired (their diff count is always zero). -/
theorem snapshot_iff_retaining (o : Oracle) (st : UiState)
    (h : (handleSubmit o st).1.error = none) :
    (handleSubmit o st).1.originalCodeForDiff =
      (if retainsOriginalCode st.mode then st.code else []) ∧
    ((handleSubmit o st).1.originalCodeForDiff ≠ [] ↔ retainsOriginalCode st.mode = true) ∧
    (retainsOriginalCode st.mode = false → ∀ content lg,
      countDiff (renderResponse content (handleSubmit o st).1.originalCodeForDiff lg) = 0) := by
  obtain ⟨mode, language, code, userInput, response, error, ocd, il, th, auth⟩ := st
  have key : (handleSubmit o
      ⟨mode, language, code, userInput, response, error, ocd, il, th, auth⟩).1.originalCodeForDiff =
      (if retainsOriginalCode mode then code else []) ∧
      (retainsOriginalCode mode = true → ¬code.isEmpty) := by
    cases mode
    case ASSIST =>
      by_cases hc : (code.isEmpty || userInput.isEmpty) = true
      · simp [handleSubmit, hc] at h
      · have hcode : code.isEmpty = false := by
          cases hx : code.isEmpty <;> simp_all
        have huser : userInput.isEmpty = false := by
          cases hy : userInput.isEmpty <;> simp_all
        have hcode' : code ≠ [] := by simp_all
        have huser' : userInput ≠ [] := by simp_all
        simp [handleSubmit, retainsOriginalCode, hcode, huser, hcode', huser']
    case GENERATE =>
      by_cases hc : userInput.isEmpty = true
      · simp [handleSubmit, hc] at h
      · simp [handleSubmit, hc, retainsOriginalCode]
    case DEBUG =>
      by_cases hc : code.isEmpty = true
      · simp [handleSubmit, hc] at h
      · simp [handleSubmit, hc, retainsOriginalCode]
    case REFACTOR =>
      by_cases hc : code.isEmpty = true
      · simp [handleSubmit, hc] at h
      · simp [handleSubmit, hc, retainsOriginalCode]
    case REVIEW =>
      by_cases hc : code.isEmpty = true
      · simp [handleSubmit, hc] at h
      · simp [handleSubmit, hc, retainsOriginalCode]
    case GENERATE_DOCS =>
      by_cases hc : code.isEmpty = true
      · simp [handleSubmit, hc] at h
      · simp [handleSubmit, hc, retainsOriginalCode]
    case GENERATE_TESTS =>
      by_cases hc : code.isEmpty = true
      · simp [handleSubmit, hc] at h
      · simp [handleSubmit, hc, retainsOriginalCode]
    case ANALYZE_REPO =>
      by_cases he : userInput.isEmpty = true
      · simp [handleSubmit, he] at h
      · rcases hg : githubMatch userInput with _ | ⟨owner, repo⟩
        · simp [handleSubmit, he, hg] at h
        · rcases hm : o.fetchMeta owner (stripDotGit repo) with e | url
          · simp [handleSubmit, he, hg, hm] at h
          · rcases hf : o.fetchContent url with e | text
            · simp [handleSubmit, he, hg, hm, hf] at h
            · simp [handleSubmit, he, hg, hm, hf, retainsOriginalCode]
  refine ⟨key.1, ?_, ?_⟩
  · rw [key.1]
    rcases hr : retainsOriginalCode mode with _ | _
    · simp
    · have hne : code ≠ [] := fun hnil => key.2 hr (by simp [hnil])
      simp [hne]
  · intro hr content lg
    rw [key.1, hr]
    rw [renderResponse, countDiff_renderGo_false]
    simp [presentB]

/-- Witness for C6: a successful REFACTOR run snapshots the submitted code,
while a successful REVIEW run of the same code leaves the snapshot empty. -/
theorem snapshot_iff_retaining_witness :
    ((handleSubmit oracle0
        ⟨.REFACTOR, .javascript, String.toList "f()", [], [], none, [], false,
         .dark, true⟩).1.originalCodeForDiff =
      (if retainsOriginalCode AiMode.REFACTOR then String.toList "f()" else []) ∧
      ((handleSubmit oracle0
        ⟨.REFACTOR, .javascript, String.toList "f()", [], [], none, [], false,
         .dark, true⟩).1.originalCodeForDiff ≠ [] ↔
        retainsOriginalCode AiMode.REFACTOR = true)) ∧
    ((handleSubmit oracle0
        ⟨.REVIEW, .javascript, String.toList "f()", [], [], none, [], false,
         .dark, true⟩).1.originalCodeForDiff =
      (if retainsOriginalCode AiMode.REVIEW then String.toList "f()" else []) ∧
      ∀ content lg,
        countDiff (renderResponse content
          (handleSubmit oracle0
            ⟨.REVIEW, .javascript, String.toList "f()", [], [], none, [], false,
             .dark, true⟩).1.originalCodeForDiff lg) = 0) := by
  have h1 := snapshot_iff_retaining oracle0
    ⟨.REFACTOR, .javascript, String.toList "f()", [], [], none, [], false, .dark, true⟩
    (by decide)
  have h2 := snapshot_iff_retaining oracle0
    ⟨.REVIEW, .javascript, String.toList "f()", [], [], none, [], false, .dark, true⟩
    (by decide)
  exact ⟨⟨h1.1, h1.2.1⟩, ⟨h2.1, h2.2.2 (by decide)⟩⟩

/-! ### List-block rendering of non-code chunks -/

theorem boldSplit_of_none {s : Str} (h : findBoldSplit s = none) : boldSplit s = [s] := by
  rw [boldSplit]
  cases s.length <;> simp [boldSplitAux, h]

theorem filterMap_if_eq_filter_map {α β : Type} (p : α → Bool) (g : α → β) (l : List α) :
    (l.filterMap fun a => if p a then some (g a) else none) = (l.filter p).map g := by
  induction l with
  | nil => rfl
  | cons a t ih =>
    by_cases h : p a <;> simp [List.filterMap_cons, List.filter_cons, h, ih]

/-- C3 counterexample.  On the input of the claim's scenario the render is a
single bullet list holding the two marker items; the plain line `more text`
is dropped and no Prose segment for it exists anywhere in the output. -/
theorem list_block_drops_trailing_prose :
    renderResponse (String.toList "* item one\n* item two\n\nmore text") [] none =
      [RenderItem.prose [FormattedPiece.listBlock
        [String.toList "item one", String.toList "item two"]]] ∧
    FormattedPiece.span (String.toList "more text") ∉
      formatPart (String.toList "* item one\n* item two\n\nmore text") := by
  decide

/-- C3 amended.  A non-code chunk with no emphasis span that is not itself
star-wrapped and whose trimmed text begins with a bullet marker is rendered
as one single List block: its items are exactly the marker lines (each line
trimmed, then the two marker characters dropped), and the chunk's non-marker
lines — blank lines and trailing text included — appear in no segment at
all instead of becoming a separate Prose segment. -/
theorem list_block_swallows_chunk (chunk : Str)
    (h1 : findBoldSplit chunk = none)
    (h2 : (startsWithStars chunk && endsWithStars chunk) = false)
    (h3 : isMarkerStart (trimStr chunk) = true) :
    formatPart chunk = [FormattedPiece.listBlock (listItems chunk)] ∧
    listItems chunk =
      ((splitLines (trimStr chunk)).filter (fun ln => isMarkerStart (trimStr ln))).map
        (fun ln => (trimStr ln).drop 2) := by
  constructor
  · rw [formatPart, boldSplit_of_none h1]
    simp [renderPiece, h2, h3]
  · rw [listItems, filterMap_if_eq_filter_map]

/-- Witness for C3 at the scenario input `* item one / * item two / blank /
more text`. -/
theorem list_block_swallows_chunk_witness :
    formatPart (String.toList "* item one\n* item two\n\nmore text") =
      [FormattedPiece.listBlock (listItems (String.toList "* item one\n* item two\n\nmore text"))] ∧
    listItems (String.toList "* item one\n* item two\n\nmore text") =
      ((splitLines (trimStr (String.toList "* item one\n* item two\n\nmore text"))).filter
          (fun ln => isMarkerStart (trimStr ln))).map
        (fun ln => (trimStr ln).drop 2) :=
  list_block_swallows_chunk (String.toList "* item one\n* item two\n\nmore text")
    (by decide) (by decide) (by decide)

/-! ### Unterminated fences -/

theorem findTriple_none_drop {l : Str} (h : findTriple l = none) :
    ∀ j, startsWithFence (l.drop j) = false := by
  induction l with
  | nil => intro j; simp [startsWithFence]
  | cons c cs ih =>
    rw [findTriple] at h
    split at h
    · exact absurd h (by simp)
    · intro j
      have hrec : findTriple cs = none := by
        rcases hx : findTriple cs with _ | m
        · rfl
        · rw [hx] at h; simp at h
      cases j with
      | zero => simpa using ‹¬startsWithFence (c :: cs) = true›
      | succ j' => simpa using ih hrec j'

theorem findTriple_some_fence {l : Str} {m : Nat} (h : findTriple l = some m) :
    startsWithFence (l.drop m) = true := by
  induction l generalizing m with
  | nil => simp [findTriple] at h
  | cons c cs ih =>
    rw [findTriple] at h
    split at h
    · obtain rfl : 0 = m := by simpa using h
      simpa using ‹startsWithFence (c :: cs) = true›
    · rcases hx : findTriple cs with _ | m'
      · rw [hx] at h; simp at h
      · rw [hx] at h
        obtain rfl : m' + 1 = m := by simpa using h
        simpa using ih hx

theorem matchLenAt_some_triple {s : Str} {n : Nat} (h : matchLenAt s = some n) :
    ∃ k, 3 ≤ k ∧ startsWithFence (s.drop k) = true := by
  rw [matchLenAt] at h
  split at h
  · rcases hx : findTriple ((s.drop 3).drop (fenceSkip (s.drop 3))) with _ | m
    · rw [hx] at h; simp at h
    · have hf := findTriple_some_fence hx
      rw [List.drop_drop, List.drop_drop] at hf
      refine ⟨_, by omega, hf⟩
  · simp at h

theorem findFenceSplit_some_triple {s : Str} {x : Str × Str × Str}
    (h : findFenceSplit s = some x) :
    ∃ k, 3 ≤ k ∧ startsWithFence (s.drop k) = true := by
  induction s generalizing x with
  | nil => simp [findFenceSplit] at h
  | cons c cs ih =>
    rw [findFenceSplit] at h
    rcases hm : matchLenAt (c :: cs) with _ | n
    · rw [hm] at h
      rcases hx : findFenceSplit cs with _ | y
      · rw [hx] at h; simp at h
      · obtain ⟨k, hk, hf⟩ := ih hx
        exact ⟨k + 1, by omega, by simpa using hf⟩
    · exact matchLenAt_some_triple hm

theorem unterminated_no_split {rest : Str} (h : findTriple rest = none) :
    findFenceSplit (tick :: tick :: tick :: rest) = none := by
  rcases hx : findFenceSplit (tick :: tick :: tick :: rest) with _ | x
  · rfl
  · obtain ⟨k, hk, hf⟩ := findFenceSplit_some_triple hx
    have : (tick :: tick :: tick :: rest).drop k = rest.drop (k - 3) := by
      obtain ⟨k', rfl⟩ : ∃ k', k = k' + 3 := ⟨k - 3, by omega⟩
      simp [List.drop_succ_cons]
    rw [this] at hf
    exact absurd hf (by simp [findTriple_none_drop h])

/-- C4 counterexample.  The input `a` + unterminated fence: it contains an
opening fence (a triple at index 1) with no closing one (`js...` holds no
further triple), yet the render contains no Code segment at all — the whole
input, fence included, becomes one Prose segment, because only a part that
starts with the fence is classified as code. -/
theorem unterminated_fence_midtext :
    renderResponse (String.toList "a```js\nconsole.log(1)") [] none =
      [RenderItem.prose [FormattedPiece.span (String.toList "a```js\nconsole.log(1)")]] ∧
    findTriple (String.toList "a```js\nconsole.log(1)") = some 1 ∧
    findTriple (String.toList "js\nconsole.log(1)") = none ∧
    (renderResponse (String.toList "a```js\nconsole.log(1)") [] none).all
      (fun i => !isCodeRender i) = true := by
  decide

/-- C4 amended.  When the unterminated fence opens a part — here, when the
input starts with the fence and its remainder holds no closing triple — the
segmenter emits one single Code segment running to end-of-string (no
trailing Prose, nothing dropped, no failure), with the declared language the
letter run after the fence and the body the stripped-and-trimmed remainder. -/
theorem unterminated_fence_is_code (rest : Str) (h : findTriple rest = none) :
    markdownParts (tick :: tick :: tick :: rest) = [tick :: tick :: tick :: rest] ∧
    renderResponse (tick :: tick :: tick :: rest) [] none =
      [RenderItem.codeBlock (rest.takeWhile isAsciiAlpha)
        (extractBody (tick :: tick :: tick :: rest))] := by
  have hparts : markdownParts (tick :: tick :: tick :: rest) = [tick :: tick :: tick :: rest] := by
    rw [markdownParts, splitFence]
    have hsplit := unterminated_no_split h
    cases hl : (tick :: tick :: tick :: rest).length with
    | zero => simp at hl
    | succ n => simp [splitFenceAux, hsplit]
  refine ⟨hparts, ?_⟩
  rw [renderResponse, hparts, renderGo]
  have hfence : startsWithFence (tick :: tick :: tick :: rest) = true := by
    simp [startsWithFence]
  rw [if_pos hfence]
  simp [renderGo, langOf, hfence]

/-- Witness for C4 at the scenario input: a single Code segment with
language `js` and body `console.log(1)`, no trailing Prose segment. -/
theorem unterminated_fence_is_code_witness :
    (markdownParts (tick :: tick :: tick :: String.toList "js\nconsole.log(1)") =
      [tick :: tick :: tick :: String.toList "js\nconsole.log(1)"] ∧
     renderResponse (tick :: tick :: tick :: String.toList "js\nconsole.log(1)") [] none =
      [RenderItem.codeBlock ((String.toList "js\nconsole.log(1)").takeWhile isAsciiAlpha)
        (extractBody (tick :: tick :: tick :: String.toList "js\nconsole.log(1)"))]) ∧
    (String.toList "js\nconsole.log(1)").takeWhile isAsciiAlpha = String.toList "js" ∧
    extractBody (tick :: tick :: tick :: String.toList "js\nconsole.log(1)") =
      String.toList "console.log(1)" :=
  ⟨unterminated_fence_is_code (String.toList "js\nconsole.log(1)") (by decide),
   by decide, by decide⟩

/-! ### Code-body extraction -/

/-- Everything after the first newline (drops the whole first line). -/
def dropFirstLine : Str → Str
  | [] => []
  | c :: cs => if c = '\n' then cs else dropFirstLine cs

/-- The body transformation as C9's words describe it, for comparison with
the source's `extractBody`: remove the whole opening fence line and the
closing fence, then trim. -/
def specC9Body (part : Str) : Str :=
  trimStr (stripCloseFence (dropFirstLine part))

/-- C9 counterexample.  For the code part whose opening line carries text
after the language tag, the source keeps that text in the body (it strips
only the backticks, the letter run and one newline), so the rendered body
differs from the claimed remove-the-opening-fence-line body. -/
theorem body_keeps_opening_line_tail :
    renderResponse (String.toList "```js x\ny\n```") [] none =
      [RenderItem.codeBlock (String.toList "js") (String.toList "x\ny")] ∧
    extractBody (String.toList "```js x\ny\n```") = String.toList "x\ny" ∧
    specC9Body (String.toList "```js x\ny\n```") = String.toList "y" ∧
    extractBody (String.toList "```js x\ny\n```") ≠
      specC9Body (String.toList "```js x\ny\n```") := by
  decide

theorem dropWhile_dropWhile {α : Type} (p : α → Bool) (l : List α) :
    (l.dropWhile p).dropWhile p = l.dropWhile p := by
  induction l with
  | nil => rfl
  | cons a t ih =>
    by_cases h : p a <;> simp [List.dropWhile_cons, h, ih]

theorem head?_dropWhile_false {α : Type} {p : α → Bool} {l : List α} {c : α}
    (h : (l.dropWhile p).head? = some c) : p c = false := by
  induction l with
  | nil => simp at h
  | cons a t ih =>
    rw [List.dropWhile_cons] at h
    by_cases hp : p a
    · rw [if_pos hp] at h; exact ih h
    · rw [if_neg hp] at h
      obtain rfl : a = c := by simpa using h
      simpa using hp

theorem getLast?_dropWhile {α : Type} {p : α → Bool} {l : List α}
    (h : l.dropWhile p ≠ []) : (l.dropWhile p).getLast? = l.getLast? := by
  induction l with
  | nil => simp at h
  | cons a t ih =>
    rw [List.dropWhile_cons]
    by_cases hp : p a
    · rw [List.dropWhile_cons, if_pos hp] at h
      have ht : t ≠ [] := by
        intro hnil
        rw [hnil] at h
        simp at h
      rw [if_pos hp, ih h]
      cases t with
      | nil => exact absurd rfl ht
      | cons b t' => simp
    · rw [if_neg hp]

/-- Trimming is idempotent: `trimStr` output has no outer whitespace left. -/
theorem trimStr_idem (s : Str) : trimStr (trimStr s) = trimStr s := by
  have step1 : (trimStr s).dropWhile jsWhitespace = trimStr s := by
    rcases hz : (s.dropWhile jsWhitespace).reverse.dropWhile jsWhitespace with _ | ⟨c, z'⟩
    · simp [trimStr, hz]
    · have hne : (s.dropWhile jsWhitespace).reverse.dropWhile jsWhitespace ≠ [] := by
        simp [hz]
      have hlast : ((s.dropWhile jsWhitespace).reverse.dropWhile jsWhitespace).getLast? =
          (s.dropWhile jsWhitespace).head? := by
        rw [getLast?_dropWhile hne, List.getLast?_reverse]
      rcases hyh : (s.dropWhile jsWhitespace).head? with _ | d
      · have : s.dropWhile jsWhitespace = [] := by
          cases hc : s.dropWhile jsWhitespace
          · rfl
          · rw [hc] at hyh; simp at hyh
        rw [this] at hz; simp at hz
      · have hwd : jsWhitespace d = false := head?_dropWhile_false hyh
        have hhead : (trimStr s).head? = some d := by
          rw [trimStr, List.head?_reverse, hz, ← hz, hlast, hyh]
        cases hts : trimStr s with
        | nil => simp
        | cons e es =>
          obtain rfl : e = d := by rw [hts] at hhead; simpa using hhead
          rw [List.dropWhile_cons, if_neg (by simp [hwd])]
  calc trimStr (trimStr s)
      = (((trimStr s).dropWhile jsWhitespace).reverse.dropWhile jsWhitespace).reverse := rfl
    _ = ((trimStr s).reverse.dropWhile jsWhitespace).reverse := by rw [step1]
    _ = trimStr s := by
        rw [trimStr, List.reverse_reverse, dropWhile_dropWhile, ← trimStr]

theorem dropWhile_append_all {p : Char → Bool} {l1 : Str} (h : ∀ c ∈ l1, p c = true)
    (l2 : Str) : (l1 ++ l2).dropWhile p = l2.dropWhile p := by
  induction l1 with
  | nil => simp
  | cons a t ih =>
    have ha : p a = true := h a (by simp)
    simp only [List.cons_append, List.dropWhile_cons, ha, if_true]
    exact ih (fun c hc => h c (by simp [hc]))

theorem renderGo_comparison_body (oc : Str) (lg : Option Lang) :
    ∀ (parts : List Str) (flag : Bool) (a b : Str) (l : Lang),
      RenderItem.comparison a b l ∈ renderGo oc lg parts flag →
      ∃ part ∈ parts, startsWithFence part = true ∧ b = extractBody part := by
  intro parts
  induction parts with
  | nil => intro flag a b l h; simp [renderGo] at h
  | cons part rest ih =>
    intro flag a b l h
    simp only [renderGo] at h
    split at h
    case isTrue h1 =>
      split at h
      case h_1 lg' heq =>
        split at h
        case isTrue h2 =>
          rw [List.mem_cons] at h
          rcases h with h | h
          · obtain ⟨-, hb, -⟩ : a = oc ∧ b = extractBody part ∧ l = heq := by
              simpa using h
            exact ⟨part, by simp, h1, hb⟩
          · obtain ⟨q, hq, hfq, hb⟩ := ih true a b l h
            exact ⟨q, by simp [hq], hfq, hb⟩
        case isFalse h2 =>
          rw [List.mem_cons] at h
          rcases h with h | h
          · simp at h
          · obtain ⟨q, hq, hfq, hb⟩ := ih flag a b l h
            exact ⟨q, by simp [hq], hfq, hb⟩
      case h_2 heq =>
        rw [List.mem_cons] at h
        rcases h with h | h
        · simp at h
        · obtain ⟨q, hq, hfq, hb⟩ := ih flag a b l h
          exact ⟨q, by simp [hq], hfq, hb⟩
    case isFalse h1 =>
      rw [List.mem_cons] at h
      rcases h with h | h
      · simp at h
      · obtain ⟨q, hq, hfq, hb⟩ := ih flag a b l h
        exact ⟨q, by simp [hq], hfq, hb⟩

theorem renderGo_codeBlock_body (oc : Str) (lg : Option Lang) :
    ∀ (parts : List Str) (flag : Bool) (lng b : Str),
      RenderItem.codeBlock lng b ∈ renderGo oc lg parts flag →
      ∃ part ∈ parts, startsWithFence part = true ∧ b = extractBody part ∧ lng = langOf part := by
  intro parts
  induction parts with
  | nil => intro flag lng b h; simp [renderGo] at h
  | cons part rest ih =>
    intro flag lng b h
    simp only [renderGo] at h
    split at h
    case isTrue h1 =>
      split at h
      case h_1 lg' heq =>
        split at h
        case isTrue h2 =>
          rw [List.mem_cons] at h
          rcases h with h | h
          · simp at h
          · obtain ⟨q, hq, hfq, hb, hl⟩ := ih true lng b h
            exact ⟨q, by simp [hq], hfq, hb, hl⟩
        case isFalse h2 =>
          rw [List.mem_cons] at h
          rcases h with h | h
          · obtain ⟨hl, hb⟩ : lng = langOf part ∧ b = extractBody part := by
              simpa using h
            exact ⟨part, by simp, h1, hb, hl⟩
          · obtain ⟨q, hq, hfq, hb, hl⟩ := ih flag lng b h
            exact ⟨q, by simp [hq], hfq, hb, hl⟩
      case h_2 heq =>
        rw [List.mem_cons] at h
        rcases h with h | h
        · obtain ⟨hl, hb⟩ : lng = langOf part ∧ b = extractBody part := by
            simpa using h
          exact ⟨part, by simp, h1, hb, hl⟩
        · obtain ⟨q, hq, hfq, hb, hl⟩ := ih flag lng b h
          exact ⟨q, by simp [hq], hfq, hb, hl⟩
    case isFalse h1 =>
      rw [List.mem_cons] at h
      rcases h with h | h
      · simp at h
      · obtain ⟨q, hq, hfq, hb, hl⟩ := ih flag lng b h
        exact ⟨q, by simp [hq], hfq, hb, hl⟩

/-- C9 amended.  The body handed to the renderer for any code part — the
same `extractBody` whether the part is diff-paired or rendered plain — is
the part with the three backticks, the immediate ASCII-letter run and one
newline directly after it removed, then a trailing triple backtick removed,
then trimmed.  When the opening line is exactly the fence and its tag this
coincides with removing the opening fence line; and the body never keeps
outer whitespace (trimming it again changes nothing), so leading and
trailing blank lines or indentation inside the fence are never preserved. -/
theorem code_body_normalization :
    (∀ tag rest : Str, (∀ c ∈ tag, isAsciiAlpha c = true) →
      extractBody (tick :: tick :: tick :: (tag ++ '\n' :: rest)) =
        trimStr (stripCloseFence rest)) ∧
    (∀ part : Str, trimStr (extractBody part) = extractBody part) ∧
    (∀ content oc : Str, ∀ lg : Option Lang, ∀ a b : Str, ∀ l : Lang,
      RenderItem.comparison a b l ∈ renderResponse content oc lg →
      ∃ part ∈ markdownParts content, startsWithFence part = true ∧ b = extractBody part) ∧
    (∀ content oc : Str, ∀ lg : Option Lang, ∀ lng b : Str,
      RenderItem.codeBlock lng b ∈ renderResponse content oc lg →
      ∃ part ∈ markdownParts content, startsWithFence part = true ∧ b = extractBody part) := by
  refine ⟨?_, ?_, ?_, ?_⟩
  · intro tag rest htag
    have hfence : startsWithFence (tick :: tick :: tick :: (tag ++ '\n' :: rest)) = true := by
      simp [startsWithFence]
    have hdrop : (tick :: tick :: tick :: (tag ++ '\n' :: rest)).drop 3 = tag ++ '\n' :: rest :=
      rfl
    have hdw : (tag ++ '\n' :: rest).dropWhile isAsciiAlpha = '\n' :: rest := by
      rw [dropWhile_append_all htag, List.dropWhile_cons, if_neg (by decide)]
    rw [extractBody, stripHeader, if_pos hfence, hdrop, hdw]
    simp
  · intro part
    rw [extractBody, trimStr_idem]
  · intro content oc lg a b l h
    exact renderGo_comparison_body oc lg (markdownParts content) false a b l h
  · intro content oc lg lng b h
    obtain ⟨q, hq, hfq, hb, -⟩ :=
      renderGo_codeBlock_body oc lg (markdownParts content) false lng b h
    exact ⟨q, hq, hfq, hb⟩

/-- Witness for C9: the well-formed fence part has body `print(1)` (the
opening fence line removed), the extraction is already trimmed, and the
bodies of a concrete diff render and of a concrete plain render both come
from `extractBody` of a fence part of the split. -/
theorem code_body_normalization_witness :
    (extractBody (tick :: tick :: tick :: (String.toList "js" ++ '\n' ::
        String.toList " print(1)\n```")) =
      trimStr (stripCloseFence (String.toList " print(1)\n```")) ∧
     extractBody (tick :: tick :: tick :: (String.toList "js" ++ '\n' ::
        String.toList " print(1)\n```")) = String.toList "print(1)") ∧
    trimStr (extractBody (String.toList "``` x ")) = extractBody (String.toList "``` x ") ∧
    (∃ part ∈ markdownParts (String.toList "```a```"), startsWithFence part = true ∧
      ([] : Str) = extractBody part) ∧
    (∃ part ∈ markdownParts (String.toList "z```b```"), startsWithFence part = true ∧
      ([] : Str) = extractBody part) := by
  refine ⟨⟨code_body_normalization.1 (String.toList "js")
      (String.toList " print(1)\n```") (by decide), by decide⟩,
    code_body_normalization.2.1 (String.toList "``` x "),
    code_body_normalization.2.2.1 (String.toList "```a```") (String.toList "o")
      (some Lang.go) (String.toList "o") [] Lang.go (by decide),
    code_body_normalization.2.2.2 (String.toList "z```b```") [] none
      (String.toList "b") [] (by decide)⟩

end AiWeb
